import Mathlib

/-!
Shallow embedding of `src/main.py` (chemScheduleTBot): a Telegram bot that
scrapes a schedule page, detects timestamp changes and broadcasts the new
schedule link to subscribers.

Modelling conventions:
* Python `datetime` values become the `DT` structure (year/month/day/
  hour/minute/second as `Nat`), with the stdlib's range validation made
  explicit in `isValidDT`.
* The configured `strftime`/`strptime` format string (`system/data_st_fmt`)
  becomes a list of `Directive`s; `strftime` renders zero-padded fixed-width
  numeric fields, `strptime` consumes them and validates the assembled date,
  starting from Python's 1900-01-01 default.
* The persisted JSON file `{users: [...], last_update: "..."}` becomes the
  `DataFile` structure; `DMState` is the in-memory `DataManager` plus the
  last written file, so "persists" is observable as the `disk` field.
* Compiled regular expressions from the configuration are parameters
  (`Config`): a search function returning the matched text and its end
  offset, mirroring `re.Pattern.search` / `Match.group` / `Match.end`.
* Python exceptions become `Except PyErr`; in-place mutation that survives a
  raised exception is modelled by returning the partial state next to the
  `Except` result.
-/

/-- A Python `datetime.datetime` value (microseconds unused by the program). -/
structure DT where
  year : Nat
  month : Nat
  day : Nat
  hour : Nat
  minute : Nat
  second : Nat
deriving DecidableEq, Repr

/-- Gregorian leap-year rule, as `calendar.isleap` / `datetime` use it. -/
def isLeap (y : Nat) : Bool :=
  (y % 4 == 0 && y % 100 != 0) || y % 400 == 0

/-- Number of days of month `m` of year `y`. -/
def daysInMonth (y m : Nat) : Nat :=
  if m = 2 then (if isLeap y then 29 else 28)
  else if m = 4 ∨ m = 6 ∨ m = 9 ∨ m = 11 then 30
  else 31

/-- The range checks Python's `datetime` constructor performs. -/
def isValidDT (d : DT) : Bool :=
  1 ≤ d.year && d.year ≤ 9999 &&
  1 ≤ d.month && d.month ≤ 12 &&
  1 ≤ d.day && d.day ≤ daysInMonth d.year d.month &&
  d.hour ≤ 23 && d.minute ≤ 59 && d.second ≤ 59

/-- The sentinel `datetime(1, 1, 1)` stored when the persisted timestamp
does not parse (`main.py` line 77). -/
def sentinelDT : DT := ⟨1, 1, 1, 0, 0, 0⟩

/-- Default date of `strptime`: fields absent from the format stay at
1900-01-01 00:00:00. -/
def strptimeDefault : DT := ⟨1900, 1, 1, 0, 0, 0⟩

/-- One directive of a `strftime`/`strptime` format string: a numeric field
(`%Y %m %d %H %M %S`) or a literal separator. -/
inductive Directive
  | year | month | day | hour | minute | second
  | lit (s : String)
deriving DecidableEq, Repr

namespace Fmt

/-- Width of the zero-padded rendering of a numeric directive. -/
def dirWidth : Directive → Nat
  | .year => 4
  | _ => 2

/-- Read the directive's field out of a `DT` (0 for literals, unused). -/
def getField (d : DT) : Directive → Nat
  | .year => d.year
  | .month => d.month
  | .day => d.day
  | .hour => d.hour
  | .minute => d.minute
  | .second => d.second
  | .lit _ => 0

/-- Write value `v` into the directive's field (literals write nothing). -/
def setField (acc : DT) (dir : Directive) (v : Nat) : DT :=
  match dir with
  | .year => { acc with year := v }
  | .month => { acc with month := v }
  | .day => { acc with day := v }
  | .hour => { acc with hour := v }
  | .minute => { acc with minute := v }
  | .second => { acc with second := v }
  | .lit _ => acc

/-- Decimal digit characters of `n`, most significant first. -/
def natChars (n : Nat) : List Char :=
  ((Nat.digits 10 n).map Nat.digitChar).reverse

/-- Zero-pad the decimal rendering of `n` to (at least) width `w`. -/
def padNum (w n : Nat) : List Char :=
  List.replicate (w - (natChars n).length) '0' ++ natChars n

/-- Numeric value of a digit character. -/
def charToDigit (c : Char) : Nat := c.toNat - 48

/-- Decimal value of a digit string, most significant first. -/
def charsToNat (cs : List Char) : Nat :=
  Nat.ofDigits 10 ((cs.map charToDigit).reverse)

/-- Render one directive of the value `d`. -/
def renderDir (d : DT) : Directive → List Char
  | .lit s => s.data
  | dir => padNum (dirWidth dir) (getField d dir)

/-- Model of `datetime.strftime` for a directive-list format (character list level). -/
def strftimeL (fmt : List Directive) (d : DT) : List Char :=
  (fmt.map (renderDir d)).flatten

/-- Model of `datetime.strftime`, producing a `String`. -/
def strftime (fmt : List Directive) (d : DT) : String :=
  ⟨strftimeL fmt d⟩

/-- Consume a fixed-width numeric field off the front of the input. -/
def readNum (w : Nat) (cs : List Char) : Option (Nat × List Char) :=
  if (cs.take w).length = w ∧ (cs.take w).all Char.isDigit then
    some (charsToNat (cs.take w), cs.drop w)
  else none

/-- Consume a literal separator off the front of the input. -/
def readLit (s : List Char) (cs : List Char) : Option (List Char) :=
  if cs.take s.length = s then some (cs.drop s.length) else none

/-- Consume one numeric directive, updating the accumulated date. -/
def consumeNum (dir : Directive) (acc : DT) (cs : List Char) :
    Option (DT × List Char) :=
  (readNum (dirWidth dir) cs).map (fun p => (setField acc dir p.1, p.2))

/-- Consume one directive, updating the accumulated date. -/
def consumeDir (dir : Directive) (acc : DT) (cs : List Char) :
    Option (DT × List Char) :=
  match dir with
  | .lit s => (readLit s.data cs).map (fun rest => (acc, rest))
  | dir => consumeNum dir acc cs

/-- Run a whole format over the input, threading the accumulated date. -/
def runFmt : List Directive → DT → List Char → Option (DT × List Char)
  | [], acc, cs => some (acc, cs)
  | dir :: fmt, acc, cs =>
    match consumeDir dir acc cs with
    | none => none
    | some (acc2, cs2) => runFmt fmt acc2 cs2

/-- Model of `datetime.strptime` for a directive-list format: parse the whole string,
starting from the 1900-01-01 default, and validate the assembled date. -/
def strptimeL (fmt : List Directive) (cs : List Char) : Option DT :=
  match runFmt fmt strptimeDefault cs with
  | some (d, []) => if isValidDT d then some d else none
  | _ => none

/-- Model of `datetime.strptime` on a `String`. -/
def strptime (fmt : List Directive) (s : String) : Option DT :=
  strptimeL fmt s.data

/-- Copy the directive's field of `d` into `acc` (literals copy nothing). -/
def stepField (acc : DT) (dir : Directive) (d : DT) : DT :=
  match dir with
  | .lit _ => acc
  | dir => setField acc dir (getField d dir)

/-- The fields of `d` named by `fmt`, written over the `strptime` default:
what a format of limited precision preserves. -/
def overlayAux (acc : DT) (fmt : List Directive) (d : DT) : DT :=
  fmt.foldl (fun a dir => stepField a dir d) acc

/-- The overlay of the format fields from the `strptime` default. -/
def overlay (fmt : List Directive) (d : DT) : DT :=
  overlayAux strptimeDefault fmt d

/-- The directive's field of `d` fits its fixed width (always true of
literals). -/
def dirFits (d : DT) : Directive → Bool
  | .lit _ => true
  | dir => getField d dir < 10 ^ dirWidth dir

end Fmt

/-- Python's `str.split(sep)` for a one-character separator, on character
lists: splitting the empty string gives one empty part, and every separator
occurrence starts a new part. -/
def splitOnChar (sep : Char) : List Char → List (List Char)
  | [] => [[]]
  | c :: rest =>
    match splitOnChar sep rest with
    | [] => [[c]]
    | g :: gs => if c = sep then [] :: g :: gs else (c :: g) :: gs

/-- Python's `int(str)` on the digit strings the program feeds it: all
characters must be decimal digits and there must be at least one. -/
def toNatStrict (cs : List Char) : Option Nat :=
  if cs ≠ [] ∧ cs.all Char.isDigit then some (Fmt.charsToNat cs) else none

/-- A Python exception class, as far as the program distinguishes them. -/
inductive PyErr
  | attributeError
  | valueError
  | indexError
  | typeError
  | keyError
  | requestError
deriving DecidableEq, Repr

/-- The configuration values `main.py` reads through `Settings.get`, with
each compiled regular expression abstracted to its `search` behaviour:
`search text = some (matchedText, endOffset)` models a successful
`re.Pattern.search` (`Match.group`, `Match.end`), `none` a failed one. -/
structure Config where
  /-- Setting `system/data_st_fmt`, as format directives. -/
  fmt : List Directive
  /-- Setting `re/date_regex`, compiled and applied via `search`. -/
  dateSearch : String → Option (String × Nat)
  /-- Setting `re/time_regex`, compiled and applied via `search`. -/
  timeSearch : String → Option (String × Nat)
  /-- Setting `re/target_file_regex`, as the text predicate `bs4` applies to anchors. -/
  targetMatch : String → Bool
  /-- Setting `scanning/base_url`. -/
  base_url : String

/-- The persisted `data/data.json` file:
`{"users": [...], "last_update": "<formatted>"}`. -/
structure DataFile where
  users : List Int
  last_update : String
deriving DecidableEq, Repr

/-- The `DataManager`'s state: the in-memory user set (a Python `set`,
modelled as a duplicate-free list), the in-memory `_last_update`, and the
contents last written to `data/data.json` (so persistence is observable). -/
structure DMState where
  users : List Int
  lastUpdate : DT
  disk : DataFile
deriving DecidableEq, Repr

namespace DataManager

/-- Model of `DataManager.save` (lines 79-85): the file written to disk — the current
user list and the timestamp formatted with `system/data_st_fmt`. -/
def save (cfg : Config) (users : List Int) (lastUpdate : DT) : DataFile :=
  ⟨users, Fmt.strftime cfg.fmt lastUpdate⟩

/-- Model of `DataManager.load` (lines 68-77): read the file, take the users as a set,
parse the timestamp with the configured format; if parsing raises, log and
fall back to `datetime(1, 1, 1)`. -/
def load (cfg : Config) (file : DataFile) : DMState :=
  { users := file.users.dedup
    lastUpdate :=
      match Fmt.strptime cfg.fmt file.last_update with
      | some d => d
      | none => sentinelDT
    disk := file }

/-- Model of `DataManager.add_user` (lines 87-92): no-op returning `False` when the
id is present; otherwise insert, save and return `True`. -/
def add_user (cfg : Config) (user_id : Int) (st : DMState) : Bool × DMState :=
  if user_id ∈ st.users then (false, st)
  else
    let users2 := st.users ++ [user_id]
    (true, { users := users2, lastUpdate := st.lastUpdate,
             disk := save cfg users2 st.lastUpdate })

/-- Model of `DataManager.del_user` (lines 94-100): `set.remove` raises `KeyError` on
an absent id, caught and turned into `False` without saving; otherwise
remove, save and return `True`. -/
def del_user (cfg : Config) (user_id : Int) (st : DMState) : Bool × DMState :=
  if user_id ∈ st.users then
    let users2 := st.users.erase user_id
    (true, { users := users2, lastUpdate := st.lastUpdate,
             disk := save cfg users2 st.lastUpdate })
  else (false, st)

/-- The `users` property (lines 102-104): a snapshot copy of the set. -/
def users (st : DMState) : List Int := st.users

/-- The `last_update` setter (lines 110-113): assign, then save. -/
def setLastUpdate (cfg : Config) (st : DMState) (date : DT) : DMState :=
  { users := st.users, lastUpdate := date,
    disk := save cfg st.users date }

end DataManager

/-- A JSON value, as `json.load` produces it (objects keep their key order;
keys are unique in well-formed input). -/
inductive JValue
  | obj (fields : List (String × JValue))
  | arr (elems : List JValue)
  | str (s : String)
  | num (n : Int)
  | bool (b : Bool)
  | null

namespace Settings

/-- Key lookup in an object, `none` when the key is absent or the value is
not an object. -/
def keyOf : JValue → String → Option JValue
  | .obj fields, k => (fields.find? (fun p => p.1 = k)).map (fun p => p.2)
  | .arr _, _ => none
  | .str _, _ => none
  | .num _, _ => none
  | .bool _, _ => none
  | .null, _ => none

/-- Python's `value[i]` for a string key: a `dict` either has the key or
raises `KeyError`; any non-`dict` raises `TypeError`. -/
def getKey (v : JValue) (k : String) : Except PyErr JValue :=
  match v with
  | .obj fields =>
    match fields.find? (fun p => p.1 = k) with
    | some p => .ok p.2
    | none => .error .keyError
  | .arr _ => .error .typeError
  | .str _ => .error .typeError
  | .num _ => .error .typeError
  | .bool _ => .error .typeError
  | .null => .error .typeError

/-- Model of `Settings.get` (lines 55-60): split on `/` and index level by level. -/
def get (json : JValue) (path : String) : Except PyErr JValue :=
  ((splitOnChar '/' path.data).map String.mk).foldlM getKey json

/-- Reference lookup: the value reached by following the segments through
nested objects, when every segment is present. -/
def follow (v : JValue) : List String → Option JValue
  | [] => some v
  | k :: rest => (keyOf v k).bind (fun w => follow w rest)

end Settings

/-- An `<a>` element: its text and its optional `href` attribute
(`Tag.get` returns `None` when the attribute is absent). -/
structure Anchor where
  text : String
  href : Option String
deriving DecidableEq, Repr

/-- A `<p>` element of the article body: its text and its anchors. -/
structure Para where
  text : String
  anchors : List Anchor
deriving DecidableEq, Repr

/-- A fetched page after `BeautifulSoup` parsing: `none` when
`find('div', attrs={'itemprop': 'articleBody'})` returns no element
(so `find_all` on `None` raises), otherwise that div's paragraph list. -/
def Page := Option (List Para)

namespace Parser

/-- Model of `Parser.extract_last_update` (lines 120-129): search the date pattern in
the text, split the match on `.` into day/month/year; search the time
pattern in the text after the date match's end, split on `.` into
hour/minute; convert all five to `int` and build a `datetime`. A failed
search raises `AttributeError` (`None.group()`), a wrong split arity or a
non-numeric field raises `ValueError`, and so does an invalid date. -/
def extract_last_update (cfg : Config) (text : String) : Except PyErr DT :=
  match cfg.dateSearch text with
  | none => .error .attributeError
  | some (dstr, dend) =>
    match splitOnChar '.' dstr.data with
    | [day, month, year] =>
      match cfg.timeSearch (text.drop dend) with
      | none => .error .attributeError
      | some (tstr, _) =>
        match splitOnChar '.' tstr.data with
        | [hour, minute] =>
          match toNatStrict day, toNatStrict month, toNatStrict year,
                toNatStrict hour, toNatStrict minute with
          | some d, some mo, some y, some h, some mi =>
            let dt : DT := ⟨y, mo, d, h, mi, 0⟩
            if isValidDT dt then .ok dt else .error .valueError
          | _, _, _, _, _ => .error .valueError
        | _ => .error .valueError
    | _ => .error .valueError

/-- Model of `Parser.extract_schedule` (lines 131-134): find the first anchor of the
paragraph whose text matches the target regex (`None` raises
`AttributeError` at `a.get`); an anchor without `href` makes the
concatenation `base_url + None` raise `TypeError`. -/
def extract_schedule (cfg : Config) (paragraph : Para) : Except PyErr String :=
  match paragraph.anchors.find? (fun a => cfg.targetMatch a.text) with
  | none => .error .attributeError
  | some a =>
    match a.href with
    | some h => .ok (cfg.base_url ++ h)
    | none => .error .typeError

/-- Model of `Parser.parse` (lines 136-151): take paragraphs 0, 2 and 3 of the
article body, extract the timestamp from paragraph 0, compare it with the
stored one; on equality return `None`, otherwise store the new timestamp
(which saves) and then extract and return the schedule link. The state is
returned beside the result so that mutations done before an exception
survive it, as they do in Python. -/
def parse (cfg : Config) (page : Page) (st : DMState) :
    DMState × Except PyErr (Option String) :=
  match page with
  | none => (st, .error .attributeError)
  | some elements =>
    match elements.get? 0, elements.get? 2, elements.get? 3 with
    | some p_last_update, some _p_interval, some p_schedule =>
      match extract_last_update cfg p_last_update.text with
      | .error e => (st, .error e)
      | .ok last_update =>
        if last_update = st.lastUpdate then (st, .ok none)
        else
          let st2 := DataManager.setLastUpdate cfg st last_update
          match extract_schedule cfg p_schedule with
          | .error e => (st2, .error e)
          | .ok schedule => (st2, .ok (some schedule))
    | _, _, _ => (st, .error .indexError)

end Parser

namespace Bot

/-- Model of `Bot.mailing` (lines 193-195): send to every user of the current
snapshot the fixed text followed by the link. The result is the list of
(recipient, text) sends. -/
def mailing (st : DMState) (link : String) : List (Int × String) :=
  (DataManager.users st).map
    (fun u => (u, "Обновление расписания:\n" ++ link))

end Bot

namespace Parser

/-- Model of `Parser.update` (lines 153-160): one scan cycle under `try`: fetch the
page, parse it, and when parsing returns a link, broadcast it. Every
exception of the cycle is caught and logged, so `update` is total: it
returns the (possibly partially mutated) state and the sends performed. -/
def update (cfg : Config) (fetched : Except PyErr Page) (st : DMState) :
    DMState × List (Int × String) :=
  match fetched with
  | .error _ => (st, [])
  | .ok page =>
    match Parser.parse cfg page st with
    | (st2, .error _) => (st2, [])
    | (st2, .ok none) => (st2, [])
    | (st2, .ok (some link)) => (st2, Bot.mailing st2 link)

/-- Model of `Parser.scanning` (lines 162-166): the infinite loop, one `update` then
a sleep, per tick; modelled over the list of that run's fetch results. -/
def scanning (cfg : Config) (fetches : List (Except PyErr Page))
    (st : DMState) : DMState :=
  fetches.foldl (fun s f => (update cfg f s).1) st

end Parser

/-! Concrete fixtures used by the witness theorems below. -/

/-- A concrete timestamp: 2023-05-17 10:30:00. -/
def dtW : DT := ⟨2023, 5, 17, 10, 30, 0⟩

/-- The timestamp a scan of the fixture page extracts: 2024-02-01 12:45. -/
def luW : DT := ⟨2024, 2, 1, 12, 45, 0⟩

/-- A concrete persisted file. -/
def fileW : DataFile := ⟨[1, 2], "17.05.2023 10:30"⟩

/-- A concrete configuration: a `%d.%m.%Y %H:%M` format and constant-result
search functions standing for the configured regular expressions. -/
def cfgW : Config :=
  { fmt := [Directive.day, Directive.lit ".", Directive.month,
            Directive.lit ".", Directive.year, Directive.lit " ",
            Directive.hour, Directive.lit ":", Directive.minute]
    dateSearch := fun _ => some ("01.02.2024", 21)
    timeSearch := fun _ => some ("12.45", 6)
    targetMatch := fun s => s == "новое расписание"
    base_url := "http://chem.example" }

/-- A concrete store state. -/
def stW : DMState := ⟨[1, 2], dtW, fileW⟩

/-- The schedule anchor of the fixture page. -/
def anchorW : Anchor := ⟨"новое расписание", some "/files/new.pdf"⟩

/-- Fixture paragraphs: the update notice, filler, and the schedule
paragraph with (resp. without) a matching anchor. -/
def pUpdW : Para := ⟨"Обновлено: 01.02.2024 в 12.45", []⟩

def pOtherW : Para := ⟨"прочее", []⟩

def pSchedW : Para := ⟨"Расписание", [anchorW]⟩

def pNoLinkW : Para := ⟨"Расписание", []⟩

/-- The fixture page's paragraph list. -/
def elementsW : List Para := [pUpdW, pOtherW, pOtherW, pSchedW]

/-- A fixture page whose schedule paragraph has no matching anchor. -/
def elementsBadW : List Para := [pUpdW, pOtherW, pOtherW, pNoLinkW]

/-- A concrete settings tree. -/
def treeW : JValue :=
  .obj [("system", .obj [("data_st_fmt", .str "%d.%m.%Y %H:%M")]),
        ("scanning", .num 60)]


namespace Fmt
theorem charToDigit_digitChar {d : Nat} (h : d < 10) :
    charToDigit (Nat.digitChar d) = d := by
  interval_cases d <;> decide

theorem digitChar_isDigit {d : Nat} (h : d < 10) :
    (Nat.digitChar d).isDigit = true := by
  interval_cases d <;> decide

theorem natChars_length_le {n w : Nat} (h : n < 10 ^ w) :
    (natChars n).length ≤ w := by
  unfold natChars
  simp only [List.length_reverse, List.length_map]
  by_contra hc
  push_neg at hc
  rcases Nat.eq_zero_or_pos n with h0 | h0
  · simp [h0, Nat.digits_zero] at hc
  · have hle := Nat.base_pow_length_digits_le 10 n (by norm_num)
      (Nat.pos_iff_ne_zero.mp h0)
    have hp : 10 ^ (w + 1) ≤ 10 ^ (Nat.digits 10 n).length :=
      Nat.pow_le_pow_right (by norm_num) hc
    have h10 : 10 * 10 ^ w ≤ 10 * n := by
      calc 10 * 10 ^ w = 10 ^ (w + 1) := by ring
      _ ≤ 10 ^ (Nat.digits 10 n).length := hp
      _ ≤ 10 * n := hle
    have := Nat.le_of_mul_le_mul_left h10 (by norm_num)
    omega

theorem padNum_length {w n : Nat} (h : n < 10 ^ w) :
    (padNum w n).length = w := by
  have := natChars_length_le h
  simp [padNum]
  omega

theorem padNum_all_digits (w n : Nat) :
    (padNum w n).all Char.isDigit = true := by
  rw [List.all_eq_true]
  intro c hc
  rw [padNum, List.mem_append] at hc
  rcases hc with hc | hc
  · rw [List.eq_of_mem_replicate hc]; decide
  · rw [natChars, List.mem_reverse, List.mem_map] at hc
    obtain ⟨d, hd, rfl⟩ := hc
    exact digitChar_isDigit (Nat.digits_lt_base (by norm_num) hd)

theorem ofDigits_replicate_zero (k : Nat) :
    Nat.ofDigits 10 (List.replicate k 0) = 0 := by
  induction k with
  | zero => rfl
  | succ m ih => simp [List.replicate_succ, Nat.ofDigits_cons, ih]

theorem charsToNat_padNum (w n : Nat) : charsToNat (padNum w n) = n := by
  have hmap : (natChars n).map charToDigit = (Nat.digits 10 n).reverse := by
    rw [natChars, List.map_reverse, List.map_map]
    congr 1
    rw [show (Nat.digits 10 n).map (charToDigit ∘ Nat.digitChar)
        = (Nat.digits 10 n).map id from
      List.map_congr_left (fun d hd =>
        charToDigit_digitChar (Nat.digits_lt_base (by norm_num) hd)),
      List.map_id]
  rw [charsToNat, padNum, List.map_append, hmap, List.map_replicate]
  show Nat.ofDigits 10
    (List.replicate (w - (natChars n).length) (charToDigit '0')
      ++ (Nat.digits 10 n).reverse).reverse = n
  rw [List.reverse_append, List.reverse_reverse]
  have h0 : charToDigit '0' = 0 := rfl
  rw [h0, List.reverse_replicate, Nat.ofDigits_append,
    Nat.ofDigits_digits, ofDigits_replicate_zero]
  ring

theorem readNum_padNum {w n : Nat} (h : n < 10 ^ w) (rest : List Char) :
    readNum w (padNum w n ++ rest) = some (n, rest) := by
  have hlen : (padNum w n).length = w := padNum_length h
  have ht : (padNum w n ++ rest).take (padNum w n).length = padNum w n :=
    List.take_left _ _
  have hd : (padNum w n ++ rest).drop (padNum w n).length = rest :=
    List.drop_left _ _
  rw [hlen] at ht hd
  rw [readNum, ht, hd, if_pos ⟨hlen, padNum_all_digits w n⟩,
    charsToNat_padNum]

theorem readLit_append (s rest : List Char) :
    readLit s (s ++ rest) = some rest := by
  have ht : (s ++ rest).take s.length = s := List.take_left _ _
  have hd : (s ++ rest).drop s.length = rest := List.drop_left _ _
  rw [readLit, ht, hd, if_pos rfl]

theorem consumeNum_renderNum {d : DT} {dir : Directive}
    (h : Fmt.getField d dir < 10 ^ dirWidth dir) (acc : DT)
    (rest : List Char) :
    consumeNum dir acc (padNum (dirWidth dir) (Fmt.getField d dir) ++ rest) =
      some (setField acc dir (Fmt.getField d dir), rest) := by
  rw [consumeNum, readNum_padNum h]
  rfl

theorem consumeDir_renderDir {d : DT} {dir : Directive}
    (h : dirFits d dir = true) (acc : DT) (rest : List Char) :
    consumeDir dir acc (renderDir d dir ++ rest) =
      some (stepField acc dir d, rest) := by
  cases dir with
  | lit s =>
    show (readLit s.data (s.data ++ rest)).map (fun r => (acc, r)) =
      some (acc, rest)
    rw [readLit_append]
    rfl
  | year => exact consumeNum_renderNum (by simpa [dirFits] using h) acc rest
  | month => exact consumeNum_renderNum (by simpa [dirFits] using h) acc rest
  | day => exact consumeNum_renderNum (by simpa [dirFits] using h) acc rest
  | hour => exact consumeNum_renderNum (by simpa [dirFits] using h) acc rest
  | minute => exact consumeNum_renderNum (by simpa [dirFits] using h) acc rest
  | second => exact consumeNum_renderNum (by simpa [dirFits] using h) acc rest

theorem runFmt_strftimeL {fmt : List Directive} {d : DT}
    (h : ∀ dir ∈ fmt, dirFits d dir = true) (acc : DT) (rest : List Char) :
    runFmt fmt acc (strftimeL fmt d ++ rest) =
      some (overlayAux acc fmt d, rest) := by
  induction fmt generalizing acc with
  | nil => rfl
  | cons dir fmt ih =>
    rw [strftimeL, List.map_cons, List.flatten_cons, List.append_assoc]
    rw [runFmt, consumeDir_renderDir (h dir (List.mem_cons_self dir fmt)) acc]
    exact ih (fun x hx => h x (List.mem_cons_of_mem _ hx)) _

theorem strptime_strftime {fmt : List Directive} {d : DT}
    (hfits : ∀ dir ∈ fmt, dirFits d dir = true)
    (hvalid : isValidDT (overlay fmt d) = true) :
    strptime fmt (strftime fmt d) = some (overlay fmt d) := by
  have hrun := runFmt_strftimeL hfits strptimeDefault ([] : List Char)
  rw [List.append_nil] at hrun
  have hrun2 : runFmt fmt strptimeDefault (strftimeL fmt d) =
      some (overlay fmt d, []) := hrun
  rw [strptime, strftime]
  show strptimeL fmt (strftimeL fmt d) = some (overlay fmt d)
  rw [strptimeL, hrun2]
  show (if isValidDT (overlay fmt d) = true
    then some (overlay fmt d) else none) = some (overlay fmt d)
  rw [if_pos hvalid]



theorem getField_stepField_self (a d : DT) (dir : Directive) :
    getField (stepField a dir d) dir = getField d dir := by
  cases dir <;> rfl

theorem getField_stepField_of_ne {dir2 dir : Directive} (h : dir2 ≠ dir)
    (a d : DT) : getField (stepField a dir2 d) dir = getField a dir := by
  cases dir2 <;> cases dir <;> first | rfl | exact absurd rfl h

theorem getField_overlayAux_of_not_mem {dir : Directive}
    {fmt : List Directive} (h : dir ∉ fmt) (acc d : DT) :
    getField (overlayAux acc fmt d) dir = getField acc dir := by
  induction fmt generalizing acc with
  | nil => rfl
  | cons dir2 fmt ih =>
    have h2 : dir2 ≠ dir := fun he => h (he ▸ List.mem_cons_self dir2 fmt)
    have hrest : dir ∉ fmt := fun hm => h (List.mem_cons_of_mem _ hm)
    show getField (overlayAux (stepField acc dir2 d) fmt d) dir = getField acc dir
    rw [ih hrest, getField_stepField_of_ne h2]

theorem getField_overlayAux_of_mem {dir : Directive} {fmt : List Directive}
    (h : dir ∈ fmt) (acc d : DT) :
    getField (overlayAux acc fmt d) dir = getField d dir := by
  induction fmt generalizing acc with
  | nil => cases h
  | cons dir2 fmt ih =>
    show getField (overlayAux (stepField acc dir2 d) fmt d) dir = getField d dir
    by_cases hm : dir ∈ fmt
    · exact ih hm _
    · have : dir = dir2 := by
        rcases List.mem_cons.mp h with he | hm2
        · exact he
        · exact absurd hm2 hm
      subst this
      rw [getField_overlayAux_of_not_mem hm, getField_stepField_self]

/-- The fields named by the format are preserved by `overlay`. -/
theorem getField_overlay_of_mem {dir : Directive} {fmt : List Directive}
    (h : dir ∈ fmt) (d : DT) :
    getField (overlay fmt d) dir = getField d dir :=
  getField_overlayAux_of_mem h _ d

end Fmt

namespace Settings

theorem getKey_of_keyOf_some {j w : JValue} {k : String}
    (h : keyOf j k = some w) : getKey j k = .ok w := by
  cases j with
  | obj fields =>
    rw [keyOf] at h
    rcases hf : fields.find? (fun p => p.1 = k) with _ | p
    · rw [hf] at h; cases h
    · rw [hf, Option.map_some'] at h
      cases h
      rw [getKey, hf]
  | arr elems => rw [keyOf] at h; cases h
  | str s => rw [keyOf] at h; cases h
  | num n => rw [keyOf] at h; cases h
  | bool b => rw [keyOf] at h; cases h
  | null => rw [keyOf] at h; cases h

theorem getKey_of_keyOf_none {j : JValue} {k : String}
    (h : keyOf j k = none) : ∃ e, getKey j k = .error e := by
  cases j with
  | obj fields =>
    rw [keyOf] at h
    rcases hf : fields.find? (fun p => p.1 = k) with _ | p
    · exact ⟨.keyError, by rw [getKey, hf]⟩
    · rw [hf, Option.map_some'] at h; cases h
  | arr elems => exact ⟨.typeError, rfl⟩
  | str s => exact ⟨.typeError, rfl⟩
  | num n => exact ⟨.typeError, rfl⟩
  | bool b => exact ⟨.typeError, rfl⟩
  | null => exact ⟨.typeError, rfl⟩

theorem foldlM_getKey_of_follow_some {segs : List String} {j v : JValue}
    (h : follow j segs = some v) : segs.foldlM getKey j = .ok v := by
  induction segs generalizing j with
  | nil =>
    rw [follow] at h
    cases h
    rfl
  | cons k rest ih =>
    rw [follow] at h
    rcases hk : keyOf j k with _ | w
    · rw [hk, Option.none_bind] at h; cases h
    · rw [hk, Option.some_bind] at h
      rw [List.foldlM_cons, getKey_of_keyOf_some hk]
      show rest.foldlM getKey w = .ok v
      exact ih h

theorem foldlM_getKey_of_follow_none {segs : List String} {j : JValue}
    (h : follow j segs = none) : ∃ e, segs.foldlM getKey j = .error e := by
  induction segs generalizing j with
  | nil => rw [follow] at h; cases h
  | cons k rest ih =>
    rw [follow] at h
    rcases hk : keyOf j k with _ | w
    · obtain ⟨e, he⟩ := getKey_of_keyOf_none hk
      refine ⟨e, ?_⟩
      rw [List.foldlM_cons, he]
      rfl
    · rw [hk, Option.some_bind] at h
      obtain ⟨e, he⟩ := ih h
      refine ⟨e, ?_⟩
      rw [List.foldlM_cons, getKey_of_keyOf_some hk]
      exact he

theorem foldlM_getKey_keyError {pre : List String} {j : JValue}
    {o : List (String × JValue)} {k : String} (post : List String)
    (hpre : follow j pre = some (JValue.obj o))
    (hmiss : o.find? (fun p => p.1 = k) = none) :
    (pre ++ k :: post).foldlM getKey j = .error .keyError := by
  induction pre generalizing j with
  | nil =>
    rw [follow] at hpre
    cases hpre
    rw [List.nil_append, List.foldlM_cons]
    have hg : getKey (JValue.obj o) k = .error .keyError := by
      rw [getKey, hmiss]
    rw [hg]
    rfl
  | cons k2 rest ih =>
    rw [follow] at hpre
    rcases hk : keyOf j k2 with _ | w
    · rw [hk, Option.none_bind] at hpre; cases hpre
    · rw [hk, Option.some_bind] at hpre
      rw [List.cons_append, List.foldlM_cons, getKey_of_keyOf_some hk]
      exact ih hpre

end Settings

/-! The claims. -/

/-- Claim C2: for every user identifier and store state, `DataManager.add_user`
inserts the identifier only if absent and returns whether it was newly added:
calling it twice with the same new identifier returns `true` then `false`, and
the subscriber set's size increases by exactly one; the store is persisted
exactly when the insertion succeeds (on failure the state, disk included, is
untouched; on success the disk holds exactly the new state). -/
theorem claim_C2 (cfg : Config) (user_id : Int) (st : DMState) :
    ((DataManager.add_user cfg user_id st).1 = true ↔ user_id ∉ st.users) ∧
    (user_id ∈ st.users → DataManager.add_user cfg user_id st = (false, st)) ∧
    (user_id ∉ st.users →
      (DataManager.add_user cfg user_id st).1 = true ∧
      (DataManager.add_user cfg user_id
        (DataManager.add_user cfg user_id st).2).1 = false ∧
      (DataManager.add_user cfg user_id
        (DataManager.add_user cfg user_id st).2).2 =
          (DataManager.add_user cfg user_id st).2 ∧
      (DataManager.add_user cfg user_id st).2.users.length =
        st.users.length + 1 ∧
      (DataManager.add_user cfg user_id st).2.disk =
        DataManager.save cfg (DataManager.add_user cfg user_id st).2.users
          (DataManager.add_user cfg user_id st).2.lastUpdate) := by
  by_cases hmem : user_id ∈ st.users
  · simp [DataManager.add_user, hmem]
  · simp [DataManager.add_user, hmem]

/-- Witness for C2 at a concrete input: subscribing user 3 to the store
`{1, 2}` succeeds, a second subscription is refused, and the set grows by
exactly one. -/
theorem claim_C2_witness :
    ((3 : Int) ∉ stW.users) ∧
    (DataManager.add_user cfgW 3 stW).1 = true ∧
    (DataManager.add_user cfgW 3 (DataManager.add_user cfgW 3 stW).2).1
      = false ∧
    (DataManager.add_user cfgW 3 stW).2.users.length =
      stW.users.length + 1 :=
  ⟨by decide,
   ((claim_C2 cfgW 3 stW).2.2 (by decide)).1,
   ((claim_C2 cfgW 3 stW).2.2 (by decide)).2.1,
   ((claim_C2 cfgW 3 stW).2.2 (by decide)).2.2.2.1⟩

/-- Claim C3: for every user identifier and store state, `DataManager.del_user`
deletes the identifier if present and returns whether it existed; when absent
it returns `false` and the state — subscriber set and disk — is left entirely
unchanged (no save), and it persists exactly when the deletion succeeds. -/
theorem claim_C3 (cfg : Config) (user_id : Int) (st : DMState) :
    ((DataManager.del_user cfg user_id st).1 = true ↔ user_id ∈ st.users) ∧
    (user_id ∉ st.users → DataManager.del_user cfg user_id st = (false, st)) ∧
    (user_id ∈ st.users →
      (DataManager.del_user cfg user_id st).2.users =
        st.users.erase user_id ∧
      (DataManager.del_user cfg user_id st).2.disk =
        DataManager.save cfg (st.users.erase user_id) st.lastUpdate) ∧
    (st.users.Nodup → user_id ∉ (DataManager.del_user cfg user_id st).2.users)
    := by
  by_cases hmem : user_id ∈ st.users
  · refine ⟨by simp [DataManager.del_user, hmem], fun h => absurd hmem h,
      fun _ => by simp [DataManager.del_user, hmem], fun hnd => ?_⟩
    simp only [DataManager.del_user, if_pos hmem]
    intro hin
    exact ((List.Nodup.mem_erase_iff hnd).mp hin).1 rfl
  · exact ⟨by simp [DataManager.del_user, hmem], fun _ => by
      simp [DataManager.del_user, hmem],
      fun h => absurd h hmem, fun _ => by
      simp [DataManager.del_user, hmem]⟩

/-- Witness for C3 at a concrete input: unsubscribing the absent user 9 from
the store `{1, 2}` reports failure and leaves the state untouched;
unsubscribing the present user 1 removes exactly it. -/
theorem claim_C3_witness :
    ((9 : Int) ∉ stW.users) ∧
    DataManager.del_user cfgW 9 stW = (false, stW) ∧
    ((1 : Int) ∈ stW.users) ∧
    (DataManager.del_user cfgW 1 stW).2.users = stW.users.erase 1 :=
  ⟨by decide,
   (claim_C3 cfgW 9 stW).2.1 (by decide),
   by decide,
   ((claim_C3 cfgW 1 stW).2.2.1 (by decide)).1⟩

/-- Claim C5: for every persisted file whose `last_update` string does not
parse under the configured format, `DataManager.load` does not raise: it
stores the minimal sentinel `datetime(1, 1, 1)` while still loading the user
list normally. -/
theorem claim_C5 (cfg : Config) (file : DataFile)
    (hbad : Fmt.strptime cfg.fmt file.last_update = none) :
    DataManager.load cfg file =
      { users := file.users.dedup, lastUpdate := sentinelDT, disk := file }
    := by
  simp [DataManager.load, hbad]

/-- Witness for C5 at a concrete input: the malformed timestamp `"oops"`
loads to the sentinel date, with the user list taken as a set. -/
theorem claim_C5_witness :
    Fmt.strptime cfgW.fmt "oops" = none ∧
    DataManager.load cfgW ⟨[5, 5, 6], "oops"⟩ =
      { users := [5, 6], lastUpdate := sentinelDT,
        disk := ⟨[5, 5, 6], "oops"⟩ } := by
  refine ⟨by decide, ?_⟩
  have h := claim_C5 cfgW ⟨[5, 5, 6], "oops"⟩ (by decide)
  rw [h]
  decide

/-- Claim C4: for every store state with a duplicate-free user set and a
timestamp the configured format can represent and re-parse, saving via
`DataManager.save` and reloading via `DataManager.load` round-trips: the
reloaded subscriber set equals the saved one, and the reloaded timestamp
equals the saved one up to the precision of the format — it is the overlay
of the format's fields over the `strptime` default, so every field the
format mentions is recovered exactly. -/
theorem claim_C4 (cfg : Config) (st : DMState)
    (hnodup : st.users.Nodup)
    (hfits : ∀ dir ∈ cfg.fmt, Fmt.dirFits st.lastUpdate dir = true)
    (hvalid : isValidDT (Fmt.overlay cfg.fmt st.lastUpdate) = true) :
    (DataManager.load cfg (DataManager.save cfg st.users st.lastUpdate)).users
      = st.users ∧
    (DataManager.load cfg
        (DataManager.save cfg st.users st.lastUpdate)).lastUpdate
      = Fmt.overlay cfg.fmt st.lastUpdate ∧
    (∀ dir ∈ cfg.fmt,
      Fmt.getField (DataManager.load cfg
          (DataManager.save cfg st.users st.lastUpdate)).lastUpdate dir
        = Fmt.getField st.lastUpdate dir) := by
  have hlu : (DataManager.load cfg
      (DataManager.save cfg st.users st.lastUpdate)).lastUpdate
      = Fmt.overlay cfg.fmt st.lastUpdate := by
    simp [DataManager.load, DataManager.save,
      Fmt.strptime_strftime hfits hvalid]
  refine ⟨?_, hlu, ?_⟩
  · show (DataManager.save cfg st.users st.lastUpdate).users.dedup = st.users
    exact List.dedup_eq_self.mpr hnodup
  · intro dir hdir
    rw [hlu]
    exact Fmt.getField_overlay_of_mem hdir st.lastUpdate

/-- Witness for C4 at a concrete input: the state `⟨{1, 2}, 2023-05-17
10:30⟩` saved under the `%d.%m.%Y %H:%M` format reloads to the same user
set, and the reloaded timestamp agrees with the saved one on every field of
the format (the year field shown here). -/
theorem claim_C4_witness :
    stW.users.Nodup ∧
    (∀ dir ∈ cfgW.fmt, Fmt.dirFits stW.lastUpdate dir = true) ∧
    isValidDT (Fmt.overlay cfgW.fmt stW.lastUpdate) = true ∧
    (DataManager.load cfgW
      (DataManager.save cfgW stW.users stW.lastUpdate)).users = stW.users ∧
    (DataManager.load cfgW
        (DataManager.save cfgW stW.users stW.lastUpdate)).lastUpdate
      = Fmt.overlay cfgW.fmt stW.lastUpdate ∧
    Fmt.getField (DataManager.load cfgW
        (DataManager.save cfgW stW.users stW.lastUpdate)).lastUpdate
        Directive.year
      = Fmt.getField stW.lastUpdate Directive.year :=
  ⟨by decide, by decide, by decide,
   (claim_C4 cfgW stW (by decide) (by decide) (by decide)).1,
   (claim_C4 cfgW stW (by decide) (by decide) (by decide)).2.1,
   (claim_C4 cfgW stW (by decide) (by decide) (by decide)).2.2
     Directive.year (by decide)⟩

/-- Claim C6: for every slash-separated path and settings tree,
`Settings.get` returns the value reached by following the path segments
(first conjunct); if following the segments fails anywhere it fails with an
error (second conjunct); and when the failing segment is missing from the
object at its level of the tree, that error is the key-not-found error
(third conjunct). -/
theorem claim_C6 (json : JValue) (path : String) :
    (∀ v,
      Settings.follow json ((splitOnChar '/' path.data).map String.mk)
        = some v →
      Settings.get json path = .ok v) ∧
    (Settings.follow json ((splitOnChar '/' path.data).map String.mk) = none →
      ∃ e, Settings.get json path = .error e) ∧
    (∀ pre k post o,
      (splitOnChar '/' path.data).map String.mk = pre ++ k :: post →
      Settings.follow json pre = some (JValue.obj o) →
      o.find? (fun p => p.1 = k) = none →
      Settings.get json path = .error .keyError) := by
  refine ⟨fun v hv => Settings.foldlM_getKey_of_follow_some hv,
    fun hn => Settings.foldlM_getKey_of_follow_none hn,
    fun pre k post o hsegs hpre hmiss => ?_⟩
  show ((splitOnChar '/' path.data).map String.mk).foldlM Settings.getKey json
    = .error .keyError
  rw [hsegs]
  exact Settings.foldlM_getKey_keyError post hpre hmiss

/-- Witness for C6 at a concrete input: on the fixture tree, the path
`system/data_st_fmt` resolves to the format string, and the path
`system/missing` fails with the key-not-found error. -/
theorem claim_C6_witness :
    Settings.follow treeW
      ((splitOnChar '/' ("system/data_st_fmt").data).map String.mk)
      = some (.str "%d.%m.%Y %H:%M") ∧
    Settings.get treeW "system/data_st_fmt" = .ok (.str "%d.%m.%Y %H:%M") ∧
    Settings.get treeW "system/missing" = .error .keyError :=
  ⟨rfl,
   (claim_C6 treeW "system/data_st_fmt").1 _ rfl,
   (claim_C6 treeW "system/missing").2.2 ["system"] "missing" []
     [("data_st_fmt", JValue.str "%d.%m.%Y %H:%M")] rfl rfl rfl⟩

/-- Claim C7: for every input text, `Parser.extract_last_update` matches the
date pattern first — a failed date search raises — and matches the time
pattern only in the substring starting at the date match's end offset: a
failed time search raises, and the result depends on the time pattern only
through its behaviour on that substring. -/
theorem claim_C7 (cfg : Config) (text : String) :
    (cfg.dateSearch text = none →
      Parser.extract_last_update cfg text = .error .attributeError) ∧
    (∀ dstr dend, cfg.dateSearch text = some (dstr, dend) →
      (cfg.timeSearch (text.drop dend) = none →
        ∃ e, Parser.extract_last_update cfg text = .error e) ∧
      (∀ ts, ts (text.drop dend) = cfg.timeSearch (text.drop dend) →
        Parser.extract_last_update { cfg with timeSearch := ts } text =
          Parser.extract_last_update cfg text)) := by
  refine ⟨fun hnone => by rw [Parser.extract_last_update, hnone],
    fun dstr dend hdate => ⟨fun htnone => ?_, fun ts hts => ?_⟩⟩
  · simp only [Parser.extract_last_update, hdate]
    rcases hsplit : splitOnChar '.' dstr.data with
      _ | ⟨g1, _ | ⟨g2, _ | ⟨g3, _ | gs⟩⟩⟩
    · exact ⟨.valueError, rfl⟩
    · exact ⟨.valueError, rfl⟩
    · exact ⟨.valueError, rfl⟩
    · rw [htnone]
      exact ⟨.attributeError, rfl⟩
    · exact ⟨.valueError, rfl⟩
  · simp only [Parser.extract_last_update, hdate]
    rw [hts]

/-- Witness for C7 at concrete inputs: with a date pattern that never
matches, extraction raises; with both patterns matching, replacing the time
pattern by one agreeing on the post-date-match substring leaves the result
unchanged. -/
theorem claim_C7_witness :
    ({ cfgW with dateSearch := fun _ => none }.dateSearch "txt" = none) ∧
    Parser.extract_last_update { cfgW with dateSearch := fun _ => none } "txt"
      = .error .attributeError ∧
    cfgW.dateSearch "txt" = some ("01.02.2024", 21) ∧
    Parser.extract_last_update
        { cfgW with timeSearch := fun _ => some ("12.45", 6) } "txt"
      = Parser.extract_last_update cfgW "txt" :=
  ⟨rfl,
   (claim_C7 { cfgW with dateSearch := fun _ => none } "txt").1 rfl,
   rfl,
   ((claim_C7 cfgW "txt").2 "01.02.2024" 21 rfl).2
     (fun _ => some ("12.45", 6)) rfl⟩

/-- Claim C8: `Bot.mailing` iterates the current subscriber snapshot and
sends each subscriber one message, the same for all: the fixed text followed
by the link; and the link `Parser.extract_schedule` produces is the
configured base URL concatenated with the matched anchor's `href`. -/
theorem claim_C8 (cfg : Config) (st : DMState) (link : String) :
    (Bot.mailing st link).length = (DataManager.users st).length ∧
    (∀ u msg, (u, msg) ∈ Bot.mailing st link ↔
      u ∈ DataManager.users st ∧ msg = "Обновление расписания:\n" ++ link) ∧
    (∀ p a h, p.anchors.find? (fun x => cfg.targetMatch x.text) = some a →
      a.href = some h →
      Parser.extract_schedule cfg p = .ok (cfg.base_url ++ h)) := by
  refine ⟨by simp [Bot.mailing], fun u msg => ⟨fun hm => ?_, fun hm => ?_⟩,
    fun p a h hfind hhref => ?_⟩
  · rw [Bot.mailing, List.mem_map] at hm
    obtain ⟨x, hx, he⟩ := hm
    cases he
    exact ⟨hx, rfl⟩
  · obtain ⟨hu, rfl⟩ := hm
    exact List.mem_map.mpr ⟨u, hu, rfl⟩
  · simp only [Parser.extract_schedule, hfind, hhref]

/-- Witness for C8 at a concrete input: each of the two subscribers receives
exactly the prefixed link, and the fixture paragraph's anchor yields the
base URL plus its `href`. -/
theorem claim_C8_witness :
    ((1, "Обновление расписания:\nL") ∈ Bot.mailing stW "L") ∧
    pSchedW.anchors.find? (fun x => cfgW.targetMatch x.text) = some anchorW ∧
    anchorW.href = some "/files/new.pdf" ∧
    Parser.extract_schedule cfgW pSchedW
      = .ok (cfgW.base_url ++ "/files/new.pdf") :=
  ⟨((claim_C8 cfgW stW "L").2.1 1 "Обновление расписания:\nL").mpr
     ⟨by decide, rfl⟩,
   rfl, rfl,
   (claim_C8 cfgW stW "L").2.2 pSchedW anchorW "/files/new.pdf" rfl rfl⟩

/-- Claim C9: a single scan cycle, `Parser.update`, never propagates an
exception: a failed fetch leaves the state unchanged with no sends, a
parse that raises yields the parser's (possibly partially mutated) state
with no sends, and the scanning loop always proceeds from one cycle's
resulting state to the next cycle. -/
theorem claim_C9 (cfg : Config) (st : DMState) :
    (∀ e, Parser.update cfg (.error e) st = (st, [])) ∧
    (∀ page st2 e, Parser.parse cfg page st = (st2, .error e) →
      Parser.update cfg (.ok page) st = (st2, [])) ∧
    (∀ f fetches, Parser.scanning cfg (f :: fetches) st =
      Parser.scanning cfg fetches (Parser.update cfg f st).1) := by
  refine ⟨fun e => rfl, fun page st2 e h => ?_, fun f fetches => rfl⟩
  rw [Parser.update, h]

/-- Witness for C9 at concrete inputs: a failed request is swallowed, a page
with no article body makes `parse` raise yet `update` returns normally with
no sends, and the loop steps on. -/
theorem claim_C9_witness :
    Parser.update cfgW (.error .requestError) stW = (stW, []) ∧
    Parser.parse cfgW none stW = (stW, .error .attributeError) ∧
    Parser.update cfgW (.ok none) stW = (stW, []) ∧
    Parser.scanning cfgW [.error .requestError] stW =
      Parser.scanning cfgW [] (Parser.update cfgW (.error .requestError) stW).1
    :=
  ⟨(claim_C9 cfgW stW).1 .requestError,
   rfl,
   (claim_C9 cfgW stW).2.1 none stW .attributeError rfl,
   (claim_C9 cfgW stW).2.2 (.error .requestError) []⟩

/-- Claim C1: for every page `Parser.parse` gets through (enough paragraphs,
extractable timestamp), it compares the extracted timestamp against the
stored one: on equality it returns the no-change signal `None` with the
state — stored timestamp included — unchanged; on difference it stores the
extracted timestamp and returns the newly extracted schedule link, and
parsing the same page again from the resulting state yields no-change. -/
theorem claim_C1 (cfg : Config) (elements : List Para)
    (p0 p2 p3 : Para) (st : DMState) (lu : DT)
    (h0 : elements.get? 0 = some p0) (h2 : elements.get? 2 = some p2)
    (h3 : elements.get? 3 = some p3)
    (hex : Parser.extract_last_update cfg p0.text = .ok lu) :
    (lu = st.lastUpdate →
      Parser.parse cfg (some elements) st = (st, .ok none)) ∧
    (lu ≠ st.lastUpdate → ∀ lnk, Parser.extract_schedule cfg p3 = .ok lnk →
      Parser.parse cfg (some elements) st =
        (DataManager.setLastUpdate cfg st lu, .ok (some lnk)) ∧
      (DataManager.setLastUpdate cfg st lu).lastUpdate = lu ∧
      Parser.parse cfg (some elements) (DataManager.setLastUpdate cfg st lu) =
        (DataManager.setLastUpdate cfg st lu, .ok none)) := by
  constructor
  · intro heq
    simp only [Parser.parse, h0, h2, h3, hex, if_pos heq]
  · intro hne lnk hsched
    refine ⟨?_, rfl, ?_⟩
    · simp only [Parser.parse, h0, h2, h3, hex, if_neg hne, hsched]
    · have heq2 : lu = (DataManager.setLastUpdate cfg st lu).lastUpdate := rfl
      simp only [Parser.parse, h0, h2, h3, hex, if_pos heq2]

/-- Witness for C1 at a concrete input: on the fixture page the first parse
from a store holding a different timestamp returns the extracted link and
stores 2024-02-01 12:45; the second parse of the same page returns the
no-change signal with the state unchanged. -/
theorem claim_C1_witness :
    Parser.extract_last_update cfgW pUpdW.text = .ok luW ∧
    luW ≠ stW.lastUpdate ∧
    Parser.extract_schedule cfgW pSchedW
      = .ok "http://chem.example/files/new.pdf" ∧
    Parser.parse cfgW (some elementsW) stW =
      (DataManager.setLastUpdate cfgW stW luW,
       .ok (some "http://chem.example/files/new.pdf")) ∧
    Parser.parse cfgW (some elementsW)
        (DataManager.setLastUpdate cfgW stW luW) =
      (DataManager.setLastUpdate cfgW stW luW, .ok none) :=
  ⟨rfl, by decide, rfl,
   ((claim_C1 cfgW elementsW pUpdW pOtherW pSchedW stW luW rfl rfl rfl
      rfl).2 (by decide) "http://chem.example/files/new.pdf" rfl).1,
   ((claim_C1 cfgW elementsW pUpdW pOtherW pSchedW stW luW rfl rfl rfl
      rfl).2 (by decide) "http://chem.example/files/new.pdf" rfl).2.2⟩

/-- Claim C10: in `Parser.parse`, when the extracted timestamp differs from
the stored one, the new timestamp is stored and persisted before the
schedule link is extracted; if link extraction then raises, the parse
returns the error with the new timestamp already stored and saved, the same
page thereafter yields the no-change signal, and `Parser.update` performs no
broadcast for it — the state change is not rolled back. -/
theorem claim_C10 (cfg : Config) (elements : List Para)
    (p0 p2 p3 : Para) (st : DMState) (lu : DT) (e : PyErr)
    (h0 : elements.get? 0 = some p0) (h2 : elements.get? 2 = some p2)
    (h3 : elements.get? 3 = some p3)
    (hex : Parser.extract_last_update cfg p0.text = .ok lu)
    (hne : lu ≠ st.lastUpdate)
    (hsched : Parser.extract_schedule cfg p3 = .error e) :
    Parser.parse cfg (some elements) st =
      (DataManager.setLastUpdate cfg st lu, .error e) ∧
    (DataManager.setLastUpdate cfg st lu).lastUpdate = lu ∧
    (DataManager.setLastUpdate cfg st lu).disk =
      DataManager.save cfg st.users lu ∧
    Parser.parse cfg (some elements) (DataManager.setLastUpdate cfg st lu) =
      (DataManager.setLastUpdate cfg st lu, .ok none) ∧
    Parser.update cfg (.ok (some elements)) st =
      (DataManager.setLastUpdate cfg st lu, []) := by
  have hparse : Parser.parse cfg (some elements) st =
      (DataManager.setLastUpdate cfg st lu, .error e) := by
    simp only [Parser.parse, h0, h2, h3, hex, if_neg hne, hsched]
  have heq2 : lu = (DataManager.setLastUpdate cfg st lu).lastUpdate := rfl
  refine ⟨hparse, rfl, rfl, ?_, ?_⟩
  · simp only [Parser.parse, h0, h2, h3, hex, if_pos heq2]
  · rw [Parser.update, hparse]

/-- Witness for C10 at a concrete input: on the fixture page whose schedule
paragraph has no matching anchor, the parse raises after storing and
persisting 2024-02-01 12:45, the next parse of the same page reports
no-change, and the cycle sends nothing. -/
theorem claim_C10_witness :
    Parser.extract_last_update cfgW pUpdW.text = .ok luW ∧
    luW ≠ stW.lastUpdate ∧
    Parser.extract_schedule cfgW pNoLinkW = .error .attributeError ∧
    Parser.parse cfgW (some elementsBadW) stW =
      (DataManager.setLastUpdate cfgW stW luW, .error .attributeError) ∧
    (DataManager.setLastUpdate cfgW stW luW).disk =
      DataManager.save cfgW stW.users luW ∧
    Parser.parse cfgW (some elementsBadW)
        (DataManager.setLastUpdate cfgW stW luW) =
      (DataManager.setLastUpdate cfgW stW luW, .ok none) ∧
    Parser.update cfgW (.ok (some elementsBadW)) stW =
      (DataManager.setLastUpdate cfgW stW luW, []) :=
  ⟨rfl, by decide, rfl,
   (claim_C10 cfgW elementsBadW pUpdW pOtherW pNoLinkW stW luW
      .attributeError rfl rfl rfl rfl (by decide) rfl).1,
   (claim_C10 cfgW elementsBadW pUpdW pOtherW pNoLinkW stW luW
      .attributeError rfl rfl rfl rfl (by decide) rfl).2.2.1,
   (claim_C10 cfgW elementsBadW pUpdW pOtherW pNoLinkW stW luW
      .attributeError rfl rfl rfl rfl (by decide) rfl).2.2.2.1,
   (claim_C10 cfgW elementsBadW pUpdW pOtherW pNoLinkW stW luW
      .attributeError rfl rfl rfl rfl (by decide) rfl).2.2.2.2⟩
